import Mathlib

/-!
Verification development for the retrieval-augmented generation pipeline of
the `AI-тестировщик` repository (core/rag_service.py, core/testing_agent.py).

Python strings are modelled as `List Char`; Python dicts used as document
metadata are modelled as association lists.  Fallible operations return
`Except PyExc _` where `PyExc` models the Python exception value raised.
-/

/-- Shorthand converting a Lean string literal to the `List Char` model of a
Python string. -/
def str (s : String) : List Char := s.toList

/-- Model of Python `str.strip()` (without arguments): removes leading and
trailing whitespace characters. -/
def pyStrip (s : List Char) : List Char :=
  ((s.dropWhile Char.isWhitespace).reverse.dropWhile Char.isWhitespace).reverse

/-- Model of Python `sep.join(parts)`. -/
def pyJoin (sep : List Char) : List (List Char) → List Char
  | [] => []
  | [x] => x
  | x :: y :: rest => x ++ sep ++ pyJoin sep (y :: rest)

/-- Fuel-driven worker for `replaceAll`; the fuel is an upper bound on the
length of the remaining text, which makes the recursion structural so that
everything computes by kernel reduction. -/
def replAux (pat repl : List Char) : Nat → List Char → List Char
  | 0, s => s
  | _ + 1, [] => []
  | fuel + 1, c :: rest =>
    if pat ≠ [] ∧ pat <+: (c :: rest) then
      repl ++ replAux pat repl fuel ((c :: rest).drop pat.length)
    else
      c :: replAux pat repl fuel rest

/-- Model of Python `s.replace(pat, repl)` for a non-empty `pat`: replaces
every occurrence of `pat` in `s`, scanning left to right, non-overlapping. -/
def replaceAll (pat repl s : List Char) : List Char :=
  replAux pat repl s.length s


/-! ## Data model

`Document` models `langchain.schema.Document`: a text payload plus a
string-keyed metadata mapping (modelled as an association list). -/

structure Document where
  page_content : List Char
  metadata : List (List Char × List Char) := []
deriving DecidableEq, Repr

/-- The kind (class) of a raised Python exception. -/
inductive PyExcKind where
  | valueError
  | osError
  | backendError
deriving DecidableEq, Repr

/-- A raised Python exception: its class together with its message. -/
structure PyExc where
  kind : PyExcKind
  msg : List Char
deriving DecidableEq, Repr

/-- The `ValueError` raised by `load_and_process_documents` when no document
could be loaded (rag_service.py line 92). -/
def ingestionError : PyExc :=
  ⟨PyExcKind.valueError, str "Не удалось загрузить ни одного документа"⟩

/-- The `ValueError` raised by `query` when the retrieval chain has not been
initialised (rag_service.py line 203). -/
def notReadyError : PyExc :=
  ⟨PyExcKind.valueError, str "Векторное хранилище не инициализировано. Сначала загрузите документы."⟩

/-! ## Chunker

Modelled from the spec: the Chunker used by `RAGService._create_vector_store`
is `langchain.text_splitter.RecursiveCharacterTextSplitter`, third-party
library code that is not part of this repository's sources, so it is modelled
from the spec's words alone.  The spec's normative contract (§2: "splits long
text units into overlapping fixed-size segments", the §3 Chunk invariant, and
§4.2) fixes the behaviour in characters: every chunk is at most `chunk_size`
characters long, consecutive chunks from the same Text Unit overlap by
exactly `chunk_overlap` characters, there is no overlap across unit
boundaries, splitting is deterministic, and `chunk_overlap < chunk_size` is
required so that segmentation makes nonzero progress.  Accordingly each new
segment starts `chunk_size - chunk_overlap` characters after the previous one
and the final segment is whatever remains.  The spec's soft preference for a
natural separator boundary ("prefers a natural text boundary when one
exists") can never move a boundary without breaking the character-exact
overlap invariant it states, so it is not modelled. -/

/-- Modelled from the spec: worker of `splitUnit`, absent from src/ with the
rest of the splitter.  The fuel is an upper bound on the remaining length,
making the recursion structural; it never runs out when
`chunk_overlap < chunk_size`. -/
def splitUnitAux (size ov : Nat) : Nat → List Char → List (List Char)
  | 0, t => [t]
  | fuel + 1, t =>
    if t.length ≤ size then [t]
    else t.take size :: splitUnitAux size ov fuel (t.drop (size - ov))

/-- Modelled from the spec: split one Text Unit's content into fixed-size
overlapping segments — chunks of `chunk_size` characters, each starting
`chunk_size - chunk_overlap` characters after the previous one, the last
chunk holding the remainder; an empty unit yields no chunks. -/
def splitUnit (size ov : Nat) (text : List Char) : List (List Char) :=
  if text = [] then [] else splitUnitAux size ov text.length text

/-- Two consecutive chunks overlap by exactly `ov` characters: the earlier
chunk is full, the later one is longer than the overlap, and the last `ov`
characters of the earlier chunk are precisely the first `ov` characters of
the later one. -/
def overlapExact (size ov : Nat) (a b : List Char) : Prop :=
  a.length = size ∧ ov < b.length ∧ a.drop (size - ov) = b.take ov

/-- Modelled from the spec: `split_documents` — split each Text Unit's
content and give every resulting Chunk the parent unit's metadata
verbatim. -/
def splitDocuments (size ov : Nat) (docs : List Document) : List Document :=
  docs.flatMap (fun d => (splitUnit size ov d.page_content).map (fun t => ⟨t, d.metadata⟩))


/-! ## Document Loader (`RAGService._load_*`, rag_service.py lines 96-150) -/

/-- The text a single OCR page contributes in `_extract_text_with_ocr`: the
recognised text, or the empty string when recognition of that page raised
(the `except` branch logs and continues). -/
def pageText (r : Except PyExc (List Char)) : List Char :=
  match r with
  | Except.ok t => t
  | Except.error _ => []

/-- `RAGService._extract_text_with_ocr` (lines 136-150): iterate over the
first `maxPages` rendered pages in order, appending each page's recognised
text to the accumulator; a failing page contributes nothing.  The per-page
recognition outcomes stand for the external OCR backend. -/
def extractTextWithOcr (pages : List (Except PyExc (List Char))) (maxPages : Nat) : List Char :=
  (pages.take maxPages).foldl (fun text r => text ++ pageText r) []

/-- `RAGService._load_pdf` (lines 117-134), parameterised by the outcome of
the two external backends: `direct` is the page list produced by
`PyPDFLoader.load()` and `ocr` the per-page OCR outcomes.  Returns the direct
extraction if some page strips to non-empty text, otherwise falls back to OCR
and wraps the concatenated text in a single metadata-free `Document`. -/
def loadPdf (direct : List Document) (ocr : List (Except PyExc (List Char))) : List Document :=
  if direct ≠ [] ∧ direct.any (fun d => pyStrip d.page_content ≠ []) then
    direct
  else
    [{ page_content := extractTextWithOcr ocr 87 }]

/-- `RAGService._load_code_file` (lines 96-108): one `Document` whose metadata
records the source path, the `code` file type, and a language inferred from
the file extension. -/
def loadCodeFile (file_path content : List Char) : List Document :=
  [{ page_content := content,
     metadata := [(str "source", file_path),
                  (str "file_type", str "code"),
                  (str "language", if (str ".java") <:+ file_path then str "java" else str "python")] }]

/-- `RAGService._load_text_file` (lines 110-115): one `Document` whose
metadata records only the source path. -/
def loadTextFile (file_path content : List Char) : List Document :=
  [{ page_content := content, metadata := [(str "source", file_path)] }]

/-! ## Index Builder and Generation Orchestrator state
(`RAGService`, rag_service.py lines 22-214) -/

/-- The FAISS vector store, as the snapshot of chunks it indexes. -/
structure VectorStore where
  docs : List Document

/-- The retrieval chain: invoking it with a question yields the backend
response or raises.  The response's fields are optional, mirroring
`response.get("answer", "")` / `response.get("context", [])`. -/
structure GCResponse where
  answer? : Option (List Char)
  context? : Option (List Document)

/-- The retrieval chain built by `_setup_retrieval_chain`. -/
structure Chain where
  invoke : List Char → Except PyExc GCResponse

/-- The mutable state of a `RAGService` instance (fields set in `__init__`,
lines 45-47). -/
structure RAGState where
  retrieval_chain : Option Chain
  vector_store : Option VectorStore

/-- The state right after `__init__`: no vector store, no retrieval chain. -/
def initialState : RAGState := { retrieval_chain := none, vector_store := none }

/-- Configuration of a `RAGService` instance; `buildChain` stands for the
external `create_retrieval_chain` collaborator used by
`_setup_retrieval_chain`. -/
structure RAGConfig where
  chunk_size : Nat := 500
  chunk_overlap : Nat := 100
  buildChain : VectorStore → Chain

/-- `RAGService._create_vector_store` + `_setup_retrieval_chain` (lines
152-193): chunk the documents, build the FAISS index over the chunks, and
install the new retrieval chain; both fields are replaced. -/
def createVectorStore (cfg : RAGConfig) (st : RAGState) (documents : List Document) : RAGState :=
  let split_docs := splitDocuments cfg.chunk_size cfg.chunk_overlap documents
  let vs : VectorStore := ⟨split_docs⟩
  { st with vector_store := some vs, retrieval_chain := some (cfg.buildChain vs) }

/-- Outcome of processing one input file: the documents it yielded, or the
exception its loader raised (caught and logged by the batch loop). -/
def collectDocs (files : List (Except PyExc (List Document))) : List Document :=
  files.foldl (fun all_docs f =>
    match f with
    | Except.ok docs => all_docs ++ docs
    | Except.error _ => all_docs) []

/-- `RAGService.load_and_process_documents` (lines 67-94), parameterised by
the per-file loading outcomes: failed files are skipped; if nothing was
collected the ingestion `ValueError` is raised (the service state is returned
alongside the exception, reflecting that a raise leaves the object's fields
untouched); otherwise the vector store is rebuilt from the batch. -/
def loadAndProcess (cfg : RAGConfig) (st : RAGState)
    (files : List (Except PyExc (List Document))) : Except (PyExc × RAGState) RAGState :=
  let all_docs := collectDocs files
  if all_docs = [] then
    Except.error (ingestionError, st)
  else
    Except.ok (createVectorStore cfg st all_docs)

/-- The answer/context pair `query` returns. -/
structure QueryResult where
  answer : List Char
  context : List Document

/-- `RAGService.query` (lines 195-214): raises the not-ready `ValueError`
when no retrieval chain exists, otherwise invokes the chain once and returns
its answer and context (backend failures propagate).  The second component
lists the inputs the retrieval chain was invoked with during the call. -/
def query (st : RAGState) (question : List Char) :
    Except PyExc QueryResult × List (List Char) :=
  match st.retrieval_chain with
  | none => (Except.error notReadyError, [])
  | some chain =>
    match chain.invoke question with
    | Except.ok response =>
      (Except.ok { answer := response.answer?.getD [], context := response.context?.getD [] },
       [question])
    | Except.error e => (Except.error e, [question])

/-- The prompt `generate_java_test` assembles (lines 224-233). -/
def javaTestPrompt (context prompt : List Char) : List Char :=
  (str "\n        Сгенерируй JUnit тест на Java. \n        Контекст: ") ++ context ++
  (str "\n        Требования: ") ++ prompt ++
  (str "\n        Включи:\n        - Импорты необходимых библиотек\n        - Аннотации @Test\n        - Assert проверки\n        - Логирование результатов\n        ")

/-- `RAGService.generate_java_test` (lines 216-235): build the full prompt and
answer it through `query`; the not-ready failure of `query` propagates. -/
def generateJavaTest (st : RAGState) (context prompt : List Char) :
    Except PyExc (List Char) × List (List Char) :=
  let r := query st (javaTestPrompt context prompt)
  (r.1.map (fun result => result.answer), r.2)

/-- The prompt `generate_java_test_with_javadoc` assembles (lines 248-265). -/
def javadocTestPrompt (context class_description : List Char)
    (method_descriptions : List (List Char × List Char)) : List Char :=
  let methods_desc := pyJoin (str "\n")
    (method_descriptions.map (fun p => (str "- ") ++ p.1 ++ (str ": ") ++ p.2))
  (str "\n        Сгенерируй JUnit тест на Java с полной Javadoc документацией.\n        Контекст: ") ++ context ++
  (str "\n        \n        Описание класса:\n        ") ++ class_description ++
  (str "\n        \n        Описание методов:\n        ") ++ methods_desc ++
  (str "\n        \n        Включи:\n        - Полную Javadoc документацию\n        - Все необходимые импорты\n        - Аннотации @Test\n        - Подробные assert проверки\n        ")

/-- `RAGService.generate_java_test_with_javadoc` (lines 237-267): same shape
as `generate_java_test` with the documentation-oriented prompt. -/
def generateJavaTestWithJavadoc (st : RAGState) (context class_description : List Char)
    (method_descriptions : List (List Char × List Char)) :
    Except PyExc (List Char) × List (List Char) :=
  let r := query st (javadocTestPrompt context class_description method_descriptions)
  (r.1.map (fun result => result.answer), r.2)

/-! ## Testing agent (`TestingAgent`, testing_agent.py) -/

/-- One example test loaded by `load_java_examples` (lines 50-59). -/
structure JavaExample where
  file_name : List Char
  content : List Char

/-- The argument pair `generate_new_test` passes to
`rag.generate_java_test`. -/
structure RagCall where
  context : List Char
  prompt : List Char

/-- The RAG call assembled by `TestingAgent.generate_new_test` (lines 61-69):
the context is the newline-join of the contents of the first three loaded
examples, the prompt wraps the free-text requirements. -/
def generateNewTestCall (examples : List JavaExample) (requirements : List Char) : RagCall :=
  { context := pyJoin (str "\n") ((examples.take 3).map (fun ex => ex.content)),
    prompt := (str "Сгенерируй JUnit тест со следующими требованиями:\n") ++ requirements }

/-- The fixed list of required Javadoc marker tags (testing_agent.py
line 204). -/
def requiredTags : List (List Char) := [str "@author", str "@version"]

/-- One iteration of the repair loop of `_validate_javadoc` (lines 205-207):
when the tag is absent, every occurrence of the opening delimiter gets the
generated placeholder line appended right after it. -/
def javadocRepairStep (code tag : List Char) : List Char :=
  if ¬ tag <:+: code then
    replaceAll (str "/**") ((str "/**\n * ") ++ tag ++ (str " Generated")) code
  else
    code

/-- `TestingAgent._validate_javadoc` (lines 200-208): apply the repair step
for each required tag in order. -/
def validateJavadoc (code : List Char) : List Char :=
  requiredTags.foldl javadocRepairStep code


/-! ## Test fixtures used by witnesses and counterexamples -/

/-- A concrete retrieval chain whose backend always fails. -/
def dummyChain : Chain := ⟨fun _ => Except.error ⟨PyExcKind.backendError, str "backend"⟩⟩

/-- A concrete service configuration. -/
def dummyConfig : RAGConfig := { buildChain := fun _ => dummyChain }

/-- A service state in which an index has already been built. -/
def builtState : RAGState := { retrieval_chain := some dummyChain, vector_store := some ⟨[]⟩ }

/-- A PDF page whose direct text extraction is pure whitespace. -/
def pdfWsDoc : Document :=
  { page_content := str "   \n", metadata := [(str "source", str "doc.pdf"), (str "page", str "0")] }

/-- Concrete per-page OCR outcomes: two recognised pages around one failing
page. -/
def ocrOutcomes : List (Except PyExc (List Char)) :=
  [Except.ok (str "ab"), Except.error ⟨PyExcKind.backendError, str "ocr fail"⟩, Except.ok (str "c")]

/-! ## Helper lemmas -/

theorem ocrFoldl_eq (l : List (Except PyExc (List Char))) (acc : List Char) :
    l.foldl (fun text r => text ++ pageText r) acc = acc ++ (l.map pageText).flatten := by
  induction l generalizing acc with
  | nil => simp
  | cons r rest ih => rw [List.foldl_cons, ih]; simp

theorem loadPdf_fallback (direct : List Document) (ocr : List (Except PyExc (List Char)))
    (h : ∀ d ∈ direct, pyStrip d.page_content = []) :
    loadPdf direct ocr = [{ page_content := extractTextWithOcr ocr 87 }] := by
  rw [loadPdf, if_neg]
  rintro ⟨-, hany⟩
  rw [List.any_eq_true] at hany
  obtain ⟨d, hd, hdec⟩ := hany
  exact (of_decide_eq_true hdec) (h d hd)

theorem loadPdf_direct (direct : List Document) (ocr : List (Except PyExc (List Char)))
    (d : Document) (hd : d ∈ direct) (h : pyStrip d.page_content ≠ []) :
    loadPdf direct ocr = direct := by
  rw [loadPdf, if_pos]
  exact ⟨List.ne_nil_of_mem hd, List.any_eq_true.mpr ⟨d, hd, decide_eq_true h⟩⟩

theorem collectDocs_go (files : List (Except PyExc (List Document))) (acc : List Document) :
    files.foldl (fun all_docs f =>
      match f with
      | Except.ok docs => all_docs ++ docs
      | Except.error _ => all_docs) acc = acc ++ collectDocs files := by
  induction files generalizing acc with
  | nil => simp [collectDocs]
  | cons f rest ih =>
    rw [collectDocs, List.foldl_cons, List.foldl_cons, ih, ih]
    cases f <;> simp

theorem collectDocs_append (l₁ l₂ : List (Except PyExc (List Document))) :
    collectDocs (l₁ ++ l₂) = collectDocs l₁ ++ collectDocs l₂ := by
  rw [collectDocs, List.foldl_append, collectDocs_go, collectDocs_go]
  simp

theorem collectDocs_cons_error (e : PyExc) (post : List (Except PyExc (List Document))) :
    collectDocs (Except.error e :: post) = collectDocs post := rfl

/-! ## Claim theorems -/

/-- Claim C2 (confirmed): `_load_pdf` takes the OCR fallback exactly when no
page of the direct extraction contains non-whitespace text; the fallback
processes pages in order, keeps only the first `maxPages` (87 at the call
site) pages, and a failed page contributes the empty string without aborting
the remaining pages. -/
theorem C2_pdf_ocr_fallback (direct : List Document) (ocr : List (Except PyExc (List Char)))
    (maxPages : Nat) :
    ((∀ d ∈ direct, pyStrip d.page_content = []) →
      loadPdf direct ocr = [{ page_content := extractTextWithOcr ocr 87 }]) ∧
    ((∃ d ∈ direct, pyStrip d.page_content ≠ []) → loadPdf direct ocr = direct) ∧
    extractTextWithOcr ocr maxPages = ((ocr.take maxPages).map pageText).flatten := by
  refine ⟨loadPdf_fallback direct ocr, ?_, ?_⟩
  · rintro ⟨d, hd, hne⟩
    exact loadPdf_direct direct ocr d hd hne
  · rw [extractTextWithOcr, ocrFoldl_eq]
    simp

/-- Witness for C2: a whitespace-only page triggers the fallback, and the OCR
text of `[ok "ab", error, ok "c"]` is `"abc"`. -/
theorem C2_pdf_ocr_fallback_witness :
    (∀ d ∈ [pdfWsDoc], pyStrip d.page_content = []) ∧
    loadPdf [pdfWsDoc] ocrOutcomes = [{ page_content := extractTextWithOcr ocrOutcomes 87 }] ∧
    extractTextWithOcr ocrOutcomes 87 = str "abc" :=
  ⟨by decide, (C2_pdf_ocr_fallback [pdfWsDoc] ocrOutcomes 87).1 (by decide), by decide⟩

/-- Claim C3 (confirmed): `load_and_process_documents` raises an ingestion
error iff the collected document sequence is empty; a file whose processing
raised is skipped and never fails the batch by itself. -/
theorem C3_ingestion_error_iff_empty (cfg : RAGConfig) (st : RAGState)
    (files pre post : List (Except PyExc (List Document))) (e : PyExc) :
    ((∃ p, loadAndProcess cfg st files = Except.error p) ↔ collectDocs files = []) ∧
    loadAndProcess cfg st (pre ++ Except.error e :: post) = loadAndProcess cfg st (pre ++ post) := by
  constructor
  · constructor
    · rintro ⟨p, hp⟩
      by_contra hne
      simp [loadAndProcess, hne] at hp
    · intro h
      exact ⟨(ingestionError, st), by simp [loadAndProcess, h]⟩
  · have hc : collectDocs (pre ++ Except.error e :: post) = collectDocs (pre ++ post) := by
      rw [collectDocs_append, collectDocs_append, collectDocs_cons_error]
    simp only [loadAndProcess, hc]

/-- Claim C4 (confirmed): before any successful build `query` (and hence both
`generate_java_test` variants) fails with the not-ready error, and on a state
produced by a successful build `query` invokes the retrieval chain exactly
once, with the question as input. -/
theorem C4_query_requires_index (q context prompt class_description : List Char)
    (method_descriptions : List (List Char × List Char)) (cfg : RAGConfig) (st : RAGState)
    (docs : List Document) :
    (query initialState q).1 = Except.error notReadyError ∧
    (generateJavaTest initialState context prompt).1 = Except.error notReadyError ∧
    (generateJavaTestWithJavadoc initialState context class_description
      method_descriptions).1 = Except.error notReadyError ∧
    (query (createVectorStore cfg st docs) q).2 = [q] := by
  refine ⟨rfl, rfl, rfl, ?_⟩
  cases hinv : (cfg.buildChain ⟨splitDocuments cfg.chunk_size cfg.chunk_overlap docs⟩).invoke q with
  | ok resp => simp [query, createVectorStore, hinv]
  | error e => simp [query, createVectorStore, hinv]

/-- Claim C7 counterexample: the ingestion failure and the not-ready failure
raise exceptions of the same kind (`ValueError`), so a caller cannot tell the
two cases apart by the exception type alone. -/
theorem C7_counterexample :
    loadAndProcess dummyConfig initialState [] = Except.error (ingestionError, initialState) ∧
    (query initialState (str "q")).1 = Except.error notReadyError ∧
    ingestionError.kind = notReadyError.kind :=
  ⟨rfl, rfl, rfl⟩

/-- Claim C7 (corrected): both failures are `ValueError`s; they are
distinguishable by their messages, not by their exception type. -/
theorem C7_errors_share_kind_differ_in_message :
    loadAndProcess dummyConfig initialState [] = Except.error (ingestionError, initialState) ∧
    (query initialState (str "q")).1 = Except.error notReadyError ∧
    ingestionError.kind = notReadyError.kind ∧
    ingestionError.msg ≠ notReadyError.msg :=
  ⟨rfl, rfl, rfl, by decide⟩

/-- Claim C8 (confirmed): the context `generate_new_test` passes to the
generation call depends only on the first three examples in load order (so at
most three are concatenated, however many exist), and with at least three
examples it is exactly the newline-join of their contents. -/
theorem C8_context_first_three_examples (examples : List JavaExample)
    (requirements : List Char) (e1 e2 e3 : JavaExample) (rest : List JavaExample) :
    (generateNewTestCall examples requirements).context =
      (generateNewTestCall (examples.take 3) requirements).context ∧
    (examples.take 3).length ≤ 3 ∧
    (generateNewTestCall (e1 :: e2 :: e3 :: rest) requirements).context =
      e1.content ++ str "\n" ++ e2.content ++ str "\n" ++ e3.content := by
  refine ⟨?_, ?_, ?_⟩
  · simp [generateNewTestCall, List.take_take]
  · simp
  · simp [generateNewTestCall, pyJoin]

/-- Claim C9 (confirmed): when every input file was skipped and the collected
sequence is empty, `load_and_process_documents` raises before touching the
vector store, so the service state (previously built index and chain
included) is unchanged. -/
theorem C9_failed_ingestion_preserves_state (cfg : RAGConfig) (st : RAGState)
    (files : List (Except PyExc (List Document))) (h : collectDocs files = []) :
    loadAndProcess cfg st files = Except.error (ingestionError, st) := by
  simp [loadAndProcess, h]

/-- Witness for C9: re-ingestion over one unreadable file fails and returns
the previously built state untouched. -/
theorem C9_failed_ingestion_preserves_state_witness :
    collectDocs [Except.error ⟨PyExcKind.osError, str "io"⟩] = ([] : List Document) ∧
    loadAndProcess dummyConfig builtState [Except.error ⟨PyExcKind.osError, str "io"⟩] =
      Except.error (ingestionError, builtState) :=
  ⟨rfl, C9_failed_ingestion_preserves_state dummyConfig builtState _ rfl⟩

/-- Claim C6 counterexample: a PDF whose direct extraction is all whitespace
goes through the OCR fallback, and the resulting Text Unit carries no
metadata at all — in particular no source identifier. -/
theorem C6_counterexample :
    loadPdf [pdfWsDoc] [Except.ok (str "recognised text")] =
      [{ page_content := str "recognised text", metadata := [] }] ∧
    (loadPdf [pdfWsDoc] [Except.ok (str "recognised text")]).map
      (fun d => List.lookup (str "source") d.metadata) = [none] := by
  decide

/-- Claim C6 (corrected): Text Units from source-code files carry the source
identifier and a language tag inferred from the file extension, Text Units
from plain-text files carry the source identifier, but the Text Unit built by
the OCR fallback of `_load_pdf` carries empty metadata, hence no source
identifier. -/
theorem C6_loader_metadata (file_path content : List Char) (direct : List Document)
    (ocr : List (Except PyExc (List Char)))
    (h : ∀ d ∈ direct, pyStrip d.page_content = []) :
    (loadCodeFile file_path content).map
      (fun d => List.lookup (str "source") d.metadata) = [some file_path] ∧
    (loadCodeFile file_path content).map
      (fun d => List.lookup (str "language") d.metadata) =
      [some (if (str ".java") <:+ file_path then str "java" else str "python")] ∧
    (loadTextFile file_path content).map
      (fun d => List.lookup (str "source") d.metadata) = [some file_path] ∧
    (loadPdf direct ocr).map (fun d => d.metadata) = [[]] := by
  refine ⟨rfl, rfl, rfl, ?_⟩
  rw [loadPdf_fallback direct ocr h]
  rfl

/-- Witness for C6: the amended metadata facts at a concrete `.java` file and
a concrete whitespace-only PDF. -/
theorem C6_loader_metadata_witness :
    (∀ d ∈ [pdfWsDoc], pyStrip d.page_content = []) ∧
    ((loadCodeFile (str "A.java") (str "class A")).map
      (fun d => List.lookup (str "source") d.metadata) = [some (str "A.java")] ∧
    (loadCodeFile (str "A.java") (str "class A")).map
      (fun d => List.lookup (str "language") d.metadata) =
      [some (if (str ".java") <:+ (str "A.java") then str "java" else str "python")] ∧
    (loadTextFile (str "A.java") (str "class A")).map
      (fun d => List.lookup (str "source") d.metadata) = [some (str "A.java")] ∧
    (loadPdf [pdfWsDoc] [Except.ok (str "t")]).map (fun d => d.metadata) = [[]]) :=
  ⟨by decide,
   C6_loader_metadata (str "A.java") (str "class A") [pdfWsDoc] [Except.ok (str "t")] (by decide)⟩

/-- No occurrence of the pattern leaves `replAux` untouched. -/
theorem replAux_no_occurrence_id (pat repl : List Char) (fuel : Nat) (s : List Char)
    (h : ¬ pat <:+: s) : replAux pat repl fuel s = s := by
  induction fuel generalizing s with
  | zero => rfl
  | succ fuel ih =>
    cases s with
    | nil => rfl
    | cons c rest =>
      have hcond : ¬ (pat ≠ [] ∧ pat <+: (c :: rest)) := by
        rintro ⟨-, t, ht⟩
        exact h ⟨[], t, by simpa using ht⟩
      rw [replAux, if_neg hcond, ih rest (fun hr => h (hr.trans ⟨[c], [], by simp⟩))]

/-- Model of the fact that Python `s.replace(old, new)` returns `s` unchanged
when `old` does not occur in `s`. -/
theorem replaceAll_no_occurrence_id (pat repl s : List Char) (h : ¬ pat <:+: s) :
    replaceAll pat repl s = s :=
  replAux_no_occurrence_id pat repl s.length s h

/-- Claim C10 (confirmed): on code containing no occurrence of the opening
documentation delimiter, `_validate_javadoc` is the identity, so required
tags absent from such code remain absent after repair. -/
theorem C10_no_delimiter_unchanged (code : List Char) (h : ¬ (str "/**") <:+: code) :
    validateJavadoc code = code := by
  rw [validateJavadoc, requiredTags]
  simp only [List.foldl_cons, List.foldl_nil, javadocRepairStep]
  split_ifs <;> simp_all [replaceAll_no_occurrence_id]

/-- Witness for C10: a concrete class body with no documentation delimiter is
returned verbatim. -/
theorem C10_no_delimiter_unchanged_witness :
    ¬ (str "/**") <:+: (str "class A") ∧ validateJavadoc (str "class A") = str "class A" :=
  ⟨by decide, C10_no_delimiter_unchanged (str "class A") (by decide)⟩

/-! ## Occurrence structure of `replaceAll`

These lemmas locate the replacement text inside the output of
`replaceAll` and show which substrings of the input survive it: they carry
the analysis of the `_validate_javadoc` repair step. -/

theorem prefix_append_decomp {α : Type} {l A B : List α} (h : l <+: A ++ B) :
    l <+: A ∨ ∃ l₂, l = A ++ l₂ ∧ l₂ <+: B := by
  induction A generalizing l with
  | nil => exact Or.inr ⟨l, rfl, by simpa using h⟩
  | cons a A ih =>
    cases l with
    | nil => exact Or.inl (List.nil_prefix)
    | cons x l' =>
      rw [List.cons_append, List.cons_prefix_cons] at h
      obtain ⟨rfl, h'⟩ := h
      rcases ih h' with h2 | ⟨l₂, rfl, h3⟩
      · exact Or.inl (List.cons_prefix_cons.mpr ⟨rfl, h2⟩)
      · exact Or.inr ⟨l₂, by simp, h3⟩

theorem infix_append_decomp {α : Type} {l A B : List α} (h : l <:+: A ++ B) :
    l <:+: A ∨ l <:+: B ∨
      ∃ l₁ l₂, l = l₁ ++ l₂ ∧ l₁ ≠ [] ∧ l₂ ≠ [] ∧ l₁ <:+ A ∧ l₂ <+: B := by
  induction A generalizing l with
  | nil => exact Or.inr (Or.inl (by simpa using h))
  | cons a A ih =>
    rw [List.cons_append, List.infix_cons_iff] at h
    rcases h with h | h
    · have h' : l <+: (a :: A) ++ B := by simpa using h
      rcases prefix_append_decomp h' with h2 | ⟨l₂, rfl, h3⟩
      · obtain ⟨u, hu⟩ := h2
        exact Or.inl ⟨[], u, by simpa using hu⟩
      · cases l₂ with
        | nil => exact Or.inl (by simp)
        | cons y l₂' =>
          exact Or.inr (Or.inr ⟨a :: A, y :: l₂', rfl, by simp, by simp,
            List.suffix_refl _, h3⟩)
    · rcases ih h with h2 | h2 | ⟨l₁, l₂, rfl, hne1, hne2, hsuf, hpre⟩
      · exact Or.inl (h2.trans ⟨[a], [], by simp⟩)
      · exact Or.inr (Or.inl h2)
      · exact Or.inr (Or.inr ⟨l₁, l₂, rfl, hne1, hne2, hsuf.trans (List.suffix_cons a A), hpre⟩)

/-- When the pattern occurs in the input, the output of `replAux` contains
the replacement text. -/
theorem replAux_occurrence (pat repl : List Char) (hpat : pat ≠ []) :
    ∀ fuel s, s.length ≤ fuel → pat <:+: s →
      ∃ a b, replAux pat repl fuel s = a ++ repl ++ b := by
  intro fuel
  induction fuel with
  | zero =>
    intro s hs hinf
    rw [List.length_eq_zero.mp (Nat.le_zero.mp hs)] at hinf
    exact absurd (List.infix_nil.mp hinf) hpat
  | succ fuel ih =>
    intro s hs hinf
    cases s with
    | nil => exact absurd (List.infix_nil.mp hinf) hpat
    | cons c rest =>
      by_cases hp : pat <+: (c :: rest)
      · refine ⟨[], replAux pat repl fuel ((c :: rest).drop pat.length), ?_⟩
        rw [replAux, if_pos ⟨hpat, hp⟩]
        simp
      · have hinf' : pat <:+: rest := by
          rcases List.infix_cons_iff.mp hinf with h | h
          · exact absurd h hp
          · exact h
        have hlen : rest.length ≤ fuel := by
          simp only [List.length_cons] at hs
          omega
        obtain ⟨a, b, hab⟩ := ih rest hlen hinf'
        refine ⟨c :: a, b, ?_⟩
        rw [replAux, if_neg (fun hc => hp hc.2), hab]
        simp

/-- A prefix of the output of `replAux` that shares no character with the
pattern is a prefix of the input, provided the replacement starts with a
character of the pattern. -/
theorem replAux_prefix_transfer (pat repl : List Char)
    (hrepl : ∃ c r, repl = c :: r ∧ c ∈ pat) :
    ∀ fuel s u, (∀ ch ∈ u, ch ∉ pat) → u <+: replAux pat repl fuel s → u <+: s := by
  intro fuel
  induction fuel with
  | zero => intro s u _ h; exact h
  | succ fuel ih =>
    intro s u hu hpre
    cases s with
    | nil => exact hpre
    | cons c rest =>
      by_cases hp : pat ≠ [] ∧ pat <+: (c :: rest)
      · rw [replAux, if_pos hp] at hpre
        cases u with
        | nil => exact List.nil_prefix
        | cons x u' =>
          obtain ⟨c0, r, hreq, hcin⟩ := hrepl
          rw [hreq, List.cons_append, List.cons_prefix_cons] at hpre
          obtain ⟨rfl, -⟩ := hpre
          exact absurd hcin (hu _ (List.mem_cons_self _ _))
      · rw [replAux, if_neg hp] at hpre
        cases u with
        | nil => exact List.nil_prefix
        | cons x u' =>
          rw [List.cons_prefix_cons] at hpre
          obtain ⟨rfl, h'⟩ := hpre
          exact List.cons_prefix_cons.mpr
            ⟨rfl, ih rest u' (fun ch hch => hu ch (List.mem_cons_of_mem _ hch)) h'⟩

/-- A prefix of the input that shares no character with the pattern stays a
prefix of the output of `replAux`. -/
theorem replAux_prefix_preserve (pat repl : List Char) :
    ∀ fuel s u, (∀ ch ∈ u, ch ∉ pat) → u <+: s → u <+: replAux pat repl fuel s := by
  intro fuel
  induction fuel with
  | zero => intro s u _ h; exact h
  | succ fuel ih =>
    intro s u hu hpre
    cases s with
    | nil => exact hpre
    | cons c rest =>
      by_cases hp : pat ≠ [] ∧ pat <+: (c :: rest)
      · cases u with
        | nil => exact List.nil_prefix
        | cons x u' =>
          exfalso
          obtain ⟨hpat, hp2⟩ := hp
          cases pat with
          | nil => exact hpat rfl
          | cons p0 pr =>
            rw [List.cons_prefix_cons] at hp2
            rw [List.cons_prefix_cons] at hpre
            refine hu x (List.mem_cons_self _ _) ?_
            rw [hpre.1, ← hp2.1]
            exact List.mem_cons_self _ _
      · rw [replAux, if_neg hp]
        cases u with
        | nil => exact List.nil_prefix
        | cons x u' =>
          rw [List.cons_prefix_cons] at hpre
          obtain ⟨rfl, h'⟩ := hpre
          exact List.cons_prefix_cons.mpr
            ⟨rfl, ih rest u' (fun ch hch => hu ch (List.mem_cons_of_mem _ hch)) h'⟩

/-- A substring of the input that shares no character with the pattern is
still a substring of the output of `replAux`. -/
theorem replAux_infix_preserve (pat repl : List Char) :
    ∀ fuel s t, s.length ≤ fuel → (∀ ch ∈ t, ch ∉ pat) → t <:+: s →
      t <:+: replAux pat repl fuel s := by
  intro fuel
  induction fuel with
  | zero => intro s t _ _ h; exact h
  | succ fuel ih =>
    intro s t hs ht hinf
    cases s with
    | nil => exact hinf
    | cons c rest =>
      by_cases hp : pat ≠ [] ∧ pat <+: (c :: rest)
      · obtain ⟨hpat, s', hs'⟩ := hp
        rw [replAux, if_pos ⟨hpat, ⟨s', hs'⟩⟩]
        have hdrop : (c :: rest).drop pat.length = s' := by
          rw [← hs']; exact List.drop_left _ _
        rw [hdrop]
        rw [← hs'] at hinf
        have hplen : 1 ≤ pat.length := by
          cases pat with
          | nil => exact absurd rfl hpat
          | cons p0 pr => simp
        rcases infix_append_decomp hinf with h1 | h1 | ⟨l₁, l₂, rfl, hne1, hne2, hsuf, hpre⟩
        · cases t with
          | nil => exact List.nil_infix
          | cons x t' =>
            exact absurd (h1.subset (List.mem_cons_self _ _)) (ht x (List.mem_cons_self _ _))
        · have hlen : s'.length ≤ fuel := by
            have hl : pat.length + s'.length = (c :: rest).length := by
              rw [← hs']; simp
            simp only [List.length_cons] at hl hs
            omega
          exact (ih s' t hlen ht h1).trans ⟨repl, [], by simp⟩
        · exfalso
          cases l₁ with
          | nil => exact hne1 rfl
          | cons x l₁' =>
            exact ht x (List.mem_append_left _ (List.mem_cons_self _ _))
              (hsuf.subset (List.mem_cons_self _ _))
      · rw [replAux, if_neg hp]
        rcases List.infix_cons_iff.mp hinf with h1 | h1
        · cases t with
          | nil => exact List.nil_infix
          | cons x t' =>
            rw [List.cons_prefix_cons] at h1
            obtain ⟨rfl, h''⟩ := h1
            have hpp := replAux_prefix_preserve pat repl fuel rest t'
              (fun ch hch => ht ch (List.mem_cons_of_mem _ hch)) h''
            obtain ⟨u, hu⟩ := hpp
            exact ⟨[], u, by simpa using hu⟩
        · have hlen : rest.length ≤ fuel := by
            simp only [List.length_cons] at hs
            omega
          exact (ih rest t hlen ht h1).trans ⟨[c], [], by simp⟩

/-- `replAux` cannot create a new occurrence of a string `t` that shares no
character with the pattern, does not occur in the replacement, and no
nonempty prefix of which is a suffix of the replacement. -/
theorem replAux_no_create (pat repl t : List Char)
    (hchars : ∀ ch ∈ t, ch ∉ pat)
    (hrepl : ∃ c r, repl = c :: r ∧ c ∈ pat)
    (hnotin : ¬ t <:+: repl)
    (hbound : ∀ t1, t1 <+: t → t1 ≠ [] → ¬ t1 <:+ repl) :
    ∀ fuel s, s.length ≤ fuel → ¬ t <:+: s → ¬ t <:+: replAux pat repl fuel s := by
  intro fuel
  induction fuel with
  | zero => intro s _ h; exact h
  | succ fuel ih =>
    intro s hs hne hcontra
    cases s with
    | nil => exact hne hcontra
    | cons c rest =>
      by_cases hp : pat ≠ [] ∧ pat <+: (c :: rest)
      · obtain ⟨hpat, s', hs'⟩ := hp
        rw [replAux, if_pos ⟨hpat, ⟨s', hs'⟩⟩] at hcontra
        have hdrop : (c :: rest).drop pat.length = s' := by
          rw [← hs']; exact List.drop_left _ _
        rw [hdrop] at hcontra
        rcases infix_append_decomp hcontra with h1 | h1 | ⟨l₁, l₂, heq, hne1, hne2, hsuf, hpre⟩
        · exact hnotin h1
        · have hne' : ¬ t <:+: s' := fun hx =>
            hne (by rw [← hs']; exact hx.trans ⟨pat, [], by simp⟩)
          have hlen : s'.length ≤ fuel := by
            have hl : pat.length + s'.length = (c :: rest).length := by
              rw [← hs']; simp
            have hplen : 1 ≤ pat.length := by
              cases pat with
              | nil => exact absurd rfl hpat
              | cons p0 pr => simp
            simp only [List.length_cons] at hl hs
            omega
          exact ih s' hlen hne' h1
        · exact hbound l₁ ⟨l₂, heq.symm⟩ hne1 hsuf
      · rw [replAux, if_neg hp] at hcontra
        rcases List.infix_cons_iff.mp hcontra with h1 | h1
        · cases t with
          | nil => exact hne (List.nil_infix)
          | cons x t' =>
            rw [List.cons_prefix_cons] at h1
            obtain ⟨rfl, h''⟩ := h1
            have htr := replAux_prefix_transfer pat repl hrepl fuel rest t'
              (fun ch hch => hchars ch (List.mem_cons_of_mem _ hch)) h''
            obtain ⟨u, hu⟩ := htr
            exact hne ⟨[], u, by simp [hu]⟩
        · have hlen : rest.length ≤ fuel := by
            simp only [List.length_cons] at hs
            omega
          have hne' : ¬ t <:+: rest := fun hx => hne (hx.trans ⟨[c], [], by simp⟩)
          exact ih rest hlen hne' h1

/-- Occurrence lemma lifted to `replaceAll`. -/
theorem replaceAll_occurrence (pat repl s : List Char) (hpat : pat ≠ []) (h : pat <:+: s) :
    ∃ a b, replaceAll pat repl s = a ++ repl ++ b :=
  replAux_occurrence pat repl hpat s.length s le_rfl h

/-- Preservation lemma lifted to `replaceAll`. -/
theorem replaceAll_infix_preserve (pat repl s t : List Char)
    (ht : ∀ ch ∈ t, ch ∉ pat) (h : t <:+: s) : t <:+: replaceAll pat repl s :=
  replAux_infix_preserve pat repl s.length s t le_rfl ht h

/-- No-creation lemma lifted to `replaceAll`. -/
theorem replaceAll_no_create (pat repl t s : List Char)
    (hchars : ∀ ch ∈ t, ch ∉ pat)
    (hrepl : ∃ c r, repl = c :: r ∧ c ∈ pat)
    (hnotin : ¬ t <:+: repl)
    (hbound : ∀ t1, t1 <+: t → t1 ≠ [] → ¬ t1 <:+ repl)
    (h : ¬ t <:+: s) : ¬ t <:+: replaceAll pat repl s :=
  replAux_no_create pat repl t hchars hrepl hnotin hbound s.length s le_rfl h

/-- Claim C5 counterexample: on code with no opening documentation delimiter,
the repair inserts nothing, so a missing required tag stays missing — the
claim's unconditional guarantee fails. -/
theorem C5_counterexample :
    ¬ (str "@author") <:+: (str "int x;") ∧
    validateJavadoc (str "int x;") = str "int x;" ∧
    ¬ (str "@author Generated") <:+: validateJavadoc (str "int x;") := by
  decide

/-- Claim C5 (corrected): provided the code contains the opening
documentation delimiter `/**`, the repair step `_validate_javadoc` inserts a
generated placeholder right after the delimiter for each required tag that is
absent, so the repaired output contains the synthesized placeholder
`<tag> Generated` for each missing required tag; the repair is a total string
transformation (it never raises). -/
theorem C5_javadoc_placeholder_insertion (code : List Char)
    (hdelim : (str "/**") <:+: code) :
    (¬ (str "@author") <:+: code →
      (str "@author Generated") <:+: validateJavadoc code) ∧
    (¬ (str "@version") <:+: code →
      (str "@version Generated") <:+: validateJavadoc code) := by
  have hval : validateJavadoc code =
      javadocRepairStep (javadocRepairStep code (str "@author")) (str "@version") := rfl
  have hra : (str "/**\n * ") ++ (str "@author") ++ (str " Generated") =
      str "/**\n * @author Generated" := by decide
  have hrv : (str "/**\n * ") ++ (str "@version") ++ (str " Generated") =
      str "/**\n * @version Generated" := by decide
  constructor
  · intro hA
    have h1 : javadocRepairStep code (str "@author") =
        replaceAll (str "/**") (str "/**\n * @author Generated") code := by
      rw [javadocRepairStep, if_pos hA, hra]
    obtain ⟨a, b, hab⟩ :=
      replaceAll_occurrence (str "/**") (str "/**\n * @author Generated") code (by decide) hdelim
    have hAG : (str "@author Generated") <:+: javadocRepairStep code (str "@author") := by
      rw [h1, hab]
      exact (show (str "@author Generated") <:+: (str "/**\n * @author Generated") by
        decide).trans ⟨a, b, rfl⟩
    rw [hval, javadocRepairStep, hrv]
    split_ifs with hV
    · exact hAG
    · exact replaceAll_infix_preserve (str "/**") (str "/**\n * @version Generated") _ _
        (by decide) hAG
  · intro hV
    by_cases hA : (str "@author") <:+: code
    · have h1 : javadocRepairStep code (str "@author") = code := by
        rw [javadocRepairStep, if_neg (by simpa using hA)]
      rw [hval, h1, javadocRepairStep, if_pos hV, hrv]
      obtain ⟨a, b, hab⟩ :=
        replaceAll_occurrence (str "/**") (str "/**\n * @version Generated") code (by decide) hdelim
      rw [hab]
      exact (show (str "@version Generated") <:+: (str "/**\n * @version Generated") by
        decide).trans ⟨a, b, rfl⟩
    · have h1 : javadocRepairStep code (str "@author") =
          replaceAll (str "/**") (str "/**\n * @author Generated") code := by
        rw [javadocRepairStep, if_pos hA, hra]
      have hbound0 : ∀ t1 ∈ (str "@version").inits,
          t1 ∈ (str "/**\n * @author Generated").tails → t1 = [] := by decide
      have hV1 : ¬ (str "@version") <:+: javadocRepairStep code (str "@author") := by
        rw [h1]
        refine replaceAll_no_create (str "/**") (str "/**\n * @author Generated")
          (str "@version") code (by decide) ⟨'/', str "**\n * @author Generated", rfl, by decide⟩
          (by decide) ?_ hV
        intro t1 hp hne hs
        exact hne (hbound0 t1 ((List.mem_inits _ _).mpr hp) ((List.mem_tails _ _).mpr hs))
      have hdelim1 : (str "/**") <:+: javadocRepairStep code (str "@author") := by
        rw [h1]
        obtain ⟨a, b, hab⟩ :=
          replaceAll_occurrence (str "/**") (str "/**\n * @author Generated") code (by decide) hdelim
        rw [hab]
        exact (show (str "/**") <:+: (str "/**\n * @author Generated") by decide).trans ⟨a, b, rfl⟩
      rw [hval, javadocRepairStep, if_pos hV1, hrv]
      obtain ⟨a, b, hab⟩ :=
        replaceAll_occurrence (str "/**") (str "/**\n * @version Generated")
          (javadocRepairStep code (str "@author")) (by decide) hdelim1
      rw [hab]
      exact (show (str "@version Generated") <:+: (str "/**\n * @version Generated") by
        decide).trans ⟨a, b, rfl⟩

/-- Witness for C5: a concrete documented class missing both tags receives
both placeholders. -/
theorem C5_javadoc_placeholder_insertion_witness :
    (str "/**") <:+: (str "/** doc */ class A") ∧
    ¬ (str "@author") <:+: (str "/** doc */ class A") ∧
    ¬ (str "@version") <:+: (str "/** doc */ class A") ∧
    (str "@author Generated") <:+: validateJavadoc (str "/** doc */ class A") ∧
    (str "@version Generated") <:+: validateJavadoc (str "/** doc */ class A") :=
  ⟨by decide, by decide, by decide,
   (C5_javadoc_placeholder_insertion (str "/** doc */ class A") (by decide)).1 (by decide),
   (C5_javadoc_placeholder_insertion (str "/** doc */ class A") (by decide)).2 (by decide)⟩


/-! ## Chunker invariants -/

/-- Core invariant of the spec-modelled Chunker on one nonempty unit: the
chunk list is nonempty; the unit is exactly the first chunk followed by the
non-overlapping remainders of the later chunks; the first chunk is as long as
the unit allows; every chunk fits the size budget; and consecutive chunks
overlap by exactly the configured number of characters. -/
theorem splitUnitAux_spec (size ov : Nat) (hov : ov < size) :
    ∀ (fuel : Nat) (t : List Char), t.length ≤ fuel → t ≠ [] →
      ∃ c0 cs, splitUnitAux size ov fuel t = c0 :: cs ∧
        t = c0 ++ (cs.map (fun c => c.drop ov)).flatten ∧
        c0.length = min size t.length ∧
        (∀ c ∈ c0 :: cs, c.length ≤ size) ∧
        List.Chain' (overlapExact size ov) (c0 :: cs) := by
  intro fuel
  induction fuel with
  | zero =>
    intro t ht hne
    exact absurd (List.length_eq_zero.mp (Nat.le_zero.mp ht)) hne
  | succ fuel ih =>
    intro t ht hne
    by_cases h : t.length ≤ size
    · refine ⟨t, [], ?_, by simp, (Nat.min_eq_right h).symm, ?_, List.chain'_singleton _⟩
      · rw [splitUnitAux, if_pos h]
      · intro c hc
        rw [List.mem_singleton.mp hc]
        exact h
    · have hlt : size < t.length := by omega
      have hpos : 1 ≤ size - ov := by omega
      have hlen' : (t.drop (size - ov)).length = t.length - (size - ov) := List.length_drop _ _
      have hov' : ov < (t.drop (size - ov)).length := by omega
      have hne' : t.drop (size - ov) ≠ [] := List.length_pos.mp (by omega)
      have hfuel' : (t.drop (size - ov)).length ≤ fuel := by omega
      obtain ⟨c0', cs', heq', htile', hlen0', hall', hchain'⟩ :=
        ih (t.drop (size - ov)) hfuel' hne'
      have hc0len : ov < c0'.length := by
        rw [hlen0']
        exact Nat.lt_min.mpr ⟨hov, hov'⟩
      refine ⟨t.take size, c0' :: cs', ?_, ?_, ?_, ?_, ?_⟩
      · rw [splitUnitAux, if_neg h, heq']
      · have h1 : ((c0' :: cs').map (fun c => c.drop ov)).flatten
            = c0'.drop ov ++ (cs'.map (fun c => c.drop ov)).flatten := by simp
        rw [h1, ← List.drop_append_of_le_length (le_of_lt hc0len), ← htile',
          List.drop_drop]
        have hsum : size - ov + ov = size := by omega
        rw [hsum, List.take_append_drop]
      · rw [List.length_take]
      · intro c hc
        rcases List.mem_cons.mp hc with rfl | hc'
        · rw [List.length_take]
          exact Nat.min_le_left _ _
        · exact hall' c hc'
      · refine List.chain'_cons.mpr ⟨⟨?_, hc0len, ?_⟩, hchain'⟩
        · rw [List.length_take]
          exact Nat.min_eq_left (le_of_lt hlt)
        · have hL : (t.take size).drop (size - ov) = (t.drop (size - ov)).take ov := by
            rw [List.drop_take]
            congr 1
            omega
          rw [hL, htile', List.take_append_of_le_length (le_of_lt hc0len)]

/-- Claim C1 (confirmed): for every text unit and every configuration with
overlap < chunk_size, every chunk the Chunker produces has content length at
most chunk_size; consecutive chunks from the same Text Unit overlap by
exactly the configured overlap length in characters (the last `ov` characters
of each chunk are precisely the first `ov` characters of the next, and the
unit is recovered by concatenating the first chunk with the non-overlapping
remainders of the rest); and the chunk lists of distinct Text Units are
juxtaposed, with no overlap at unit boundaries. -/
theorem C1_chunker_length_and_exact_overlap (size ov : Nat) (text : List Char)
    (d1 d2 : Document) (hov : ov < size) :
    (∀ chunk ∈ splitUnit size ov text, chunk.length ≤ size) ∧
    List.Chain' (overlapExact size ov) (splitUnit size ov text) ∧
    (∀ c0 cs, splitUnit size ov text = c0 :: cs →
      text = c0 ++ (cs.map (fun c => c.drop ov)).flatten) ∧
    splitDocuments size ov [d1, d2] =
      splitDocuments size ov [d1] ++ splitDocuments size ov [d2] := by
  by_cases hne : text = []
  · subst hne
    refine ⟨by simp [splitUnit], by simp [splitUnit], ?_, by simp [splitDocuments]⟩
    intro c0 cs h
    simp [splitUnit] at h
  · obtain ⟨c0, cs, heq, htile, hlen0, hall, hchain⟩ :=
      splitUnitAux_spec size ov hov text.length text le_rfl hne
    have hsplit : splitUnit size ov text = c0 :: cs := by
      rw [splitUnit, if_neg hne, heq]
    refine ⟨?_, ?_, ?_, by simp [splitDocuments]⟩
    · rw [hsplit]; exact hall
    · rw [hsplit]; exact hchain
    · intro c0' cs' h
      rw [hsplit] at h
      injection h with h1 h2
      subst h1
      subst h2
      exact htile

/-- Witness for C1: the length bound, the exact four-character overlaps and
the unit-boundary juxtaposition at chunk_size 10, overlap 4 on a concrete
15-character unit. -/
theorem C1_chunker_length_and_exact_overlap_witness :
    (4 < 10) ∧
    ((∀ chunk ∈ splitUnit 10 4 (str "aaa bbb ccc ddd"), chunk.length ≤ 10) ∧
    List.Chain' (overlapExact 10 4) (splitUnit 10 4 (str "aaa bbb ccc ddd")) ∧
    (∀ c0 cs, splitUnit 10 4 (str "aaa bbb ccc ddd") = c0 :: cs →
      str "aaa bbb ccc ddd" = c0 ++ (cs.map (fun c => c.drop 4)).flatten) ∧
    splitDocuments 10 4 [pdfWsDoc, pdfWsDoc] =
      splitDocuments 10 4 [pdfWsDoc] ++ splitDocuments 10 4 [pdfWsDoc]) :=
  ⟨by decide,
   C1_chunker_length_and_exact_overlap 10 4 (str "aaa bbb ccc ddd") pdfWsDoc pdfWsDoc
     (by decide)⟩
